import Mathlib

/-!
Verification of the SQL lint rule engine of `sql_lint.py`: a shallow
embedding of the `Finding` model, the four built-in rules
(`rule_semicolon`, `rule_no_select_star`, `rule_uppercase_keywords`,
`rule_typo_keywords`), the custom-rule evaluator (`run_custom_rules`),
the lint orchestrator (`run_lint`) and the auto-fix adapter (`auto_fix`),
together with theorems about the specified properties.

Modelling conventions:
* Python strings are Lean `String`s, manipulated through their `List Char`
  data; casing is modelled for ASCII (the only characters the rules
  extract are ASCII letters).
* Python `re` and `difflib` are standard-library collaborators: `re.search`
  for the fixed pattern of rule L002 is embedded concretely
  (`searchSelectStar`); a user-supplied custom pattern is modelled as
  either a compiled matcher or a malformed pattern (`RePattern`), since a
  malformed pattern makes `re.search` raise `re.error`; `difflib`'s
  `get_close_matches` is embedded with exact rational arithmetic
  (`2*M/T ≥ 0.86` is compared by cross-multiplication).
* Fallible code (a raised exception escaping a function) is an
  `Except String` result.
-/

namespace SqlLint

/-- Whitespace code points: the characters stripped by Python `str.strip()`
and matched by `\s` (`str.isspace`). -/
def pyIsSpace (c : Char) : Bool :=
  let n := c.val.toNat
  decide ((9 ≤ n ∧ n ≤ 13) ∨ n = 32 ∨ (28 ≤ n ∧ n ≤ 31) ∨ n = 0x85 ∨ n = 0xa0 ∨
    n = 0x1680 ∨ (0x2000 ≤ n ∧ n ≤ 0x200a) ∨ n = 0x2028 ∨ n = 0x2029 ∨
    n = 0x202f ∨ n = 0x205f ∨ n = 0x3000)

/-- Line-boundary characters recognized by Python `str.splitlines`
(`\n`, `\r`, `\v`, `\f`, `\x1c`, `\x1d`, `\x1e`, `\x85`, ` `, ` `;
`\r\n` is treated as a single boundary by `splitlinesAux`). -/
def isLineBoundary (c : Char) : Bool :=
  let n := c.val.toNat
  decide (n = 10 ∨ n = 13 ∨ n = 11 ∨ n = 12 ∨ n = 28 ∨ n = 29 ∨ n = 30 ∨
    n = 0x85 ∨ n = 0x2028 ∨ n = 0x2029)

/-- Python `str.splitlines`: every line boundary terminates a line (with
`\r\n` counting as one boundary); a final unterminated fragment is kept
only when non-empty, so the empty string yields `[]`. -/
def splitlinesAux : List Char → List Char → List String
  | [], acc => if acc.isEmpty then [] else [String.mk acc.reverse]
  | '\r' :: '\n' :: cs, acc => String.mk acc.reverse :: splitlinesAux cs []
  | c :: cs, acc =>
    if isLineBoundary c then String.mk acc.reverse :: splitlinesAux cs []
    else splitlinesAux cs (c :: acc)

/-- `_lines` from sql_lint.py: `s.splitlines() or [""]` (the empty list is
falsy, so an empty split result becomes a single empty line). -/
def pyLines (s : String) : List String :=
  match splitlinesAux s.data [] with
  | [] => [""]
  | ls => ls

/-- Python `s.lstrip()`. -/
def pyLstrip (s : String) : String :=
  String.mk (s.data.dropWhile pyIsSpace)

/-- Python `s.rstrip()`. -/
def pyRstrip (s : String) : String :=
  String.mk (s.data.reverse.dropWhile pyIsSpace).reverse

/-- Python `s.strip()`. -/
def pyStrip (s : String) : String :=
  pyLstrip (pyRstrip s)

/-- Python `s.endswith(";")`. -/
def endsWithSemicolon (s : String) : Bool :=
  s.data.getLast? == some ';'

/-- Python ASCII-range `str.lower` (the linter only lowercases ASCII
letters, where Python and Lean agree). -/
def pyLower (s : String) : String :=
  String.mk (s.data.map Char.toLower)

/-- Python ASCII-range `str.upper`. -/
def pyUpper (s : String) : String :=
  String.mk (s.data.map Char.toUpper)

/-- Is `c` an ASCII letter (the character class `[A-Za-z]`)? -/
def isAsciiLetter (c : Char) : Bool :=
  let n := c.val.toNat
  decide ((65 ≤ n ∧ n ≤ 90) ∨ (97 ≤ n ∧ n ≤ 122))

/-- `re.findall(r"[A-Za-z]+", line)`: maximal runs of ASCII letters,
left to right, original casing. -/
def extractWordsAux : List Char → List Char → List String
  | [], acc => if acc.isEmpty then [] else [String.mk acc.reverse]
  | c :: cs, acc =>
    if isAsciiLetter c then extractWordsAux cs (c :: acc)
    else if acc.isEmpty then extractWordsAux cs []
    else String.mk acc.reverse :: extractWordsAux cs []

def extractWords (line : String) : List String :=
  extractWordsAux line.data []

/-- Is `p` a prefix of `l`? -/
def isPrefixList : List Char → List Char → Bool
  | [], _ => true
  | _ :: _, [] => false
  | a :: as, b :: bs => a == b && isPrefixList as bs

def findSubAux (nee : List Char) : List Char → Nat → Option Nat
  | [], i => if nee.isEmpty then some i else none
  | c :: t, i => if isPrefixList nee (c :: t) then some i else findSubAux nee t (i + 1)

/-- Python `hay.find(nee)`: index of the first occurrence of the substring
`nee` in `hay`, or `-1` when absent. -/
def pyFind (hay nee : String) : Int :=
  match findSubAux nee.data hay.data 0 with
  | some i => (i : Int)
  | none => -1

/-- The `Finding` dataclass of sql_lint.py. -/
structure Finding where
  rule_id : String
  message : String
  severity : String
  line : Nat
  col : Int
  suggestion : Option String
deriving DecidableEq

/-- The `SQL_KEYWORDS` set, in source order (membership is all that the
rules use, plus the deterministic best-candidate selection modelled in
`get_close_matches1`). -/
def SQL_KEYWORDS : List String :=
  ["select", "from", "where", "group", "order", "limit", "join", "inner", "left",
   "right", "full", "outer", "on", "and", "or", "insert", "into", "update", "set",
   "delete", "create", "table", "having", "distinct", "union", "all", "case",
   "when", "then", "else", "end", "exists", "in", "is", "null", "like", "with",
   "over", "partition"]

/-- Rule L001 (`rule_semicolon`): require a trailing semicolon. -/
def rule_semicolon (sql : String) (enabled : Bool) : List Finding :=
  if !enabled || pyStrip sql == "" then []
  else if !endsWithSemicolon (pyStrip sql) then
    [⟨"L001", "Statement should end with \x27;\x27", "warning",
      (pyLines sql).length, 1, some "Add trailing \x27;\x27"⟩]
  else []

/-- Is `c` a regex word character (`\w`, modelled for ASCII: `[A-Za-z0-9_]`)? -/
def isWordChar (c : Char) : Bool :=
  isAsciiLetter c || decide (48 ≤ c.val.toNat ∧ c.val.toNat ≤ 57) || c == '_'

/-- Does `\s+\*` match at the start of `l` (one or more whitespace
characters followed by a literal star)? -/
def starAfterSpaces (l : List Char) : Bool :=
  match l with
  | [] => false
  | c :: cs => pyIsSpace c && ((cs.dropWhile pyIsSpace).head? == some '*')

/-- Does the pattern `(?i)\bselect\s+\*` match in `cs` at position `i`? -/
def selectStarAt (cs : List Char) (i : Nat) : Bool :=
  (decide (i = 0) || !isWordChar (cs.getD (i - 1) ' ')) &&
  ((cs.drop i).take 6).map Char.toLower == "select".data &&
  starAfterSpaces ((cs.drop i).drop 6)

/-- `re.search(r"(?i)\bselect\s+\*", line)`: start index of the leftmost
match, if any. -/
def searchSelectStar (line : String) : Option Nat :=
  (List.range line.data.length).find? (fun i => selectStarAt line.data i)

/-- The L002 finding for line number `i` with content `line`
(column: `max(1, line.lower().find("select") + 1)`). -/
def mkL002 (i : Nat) (line : String) : Finding :=
  ⟨"L002", "Avoid SELECT * (enumerate columns)", "error", i,
    max 1 (pyFind (pyLower line) "select" + 1), some "List explicit columns"⟩

/-- The per-line step of rule L002. -/
def l002g (p : Nat × String) : Option Finding :=
  if (searchSelectStar p.2).isSome then some (mkL002 p.1 p.2) else none

/-- Rule L002 (`rule_no_select_star`): flag `SELECT *`, one finding per
matching line. -/
def rule_no_select_star (sql : String) (enabled : Bool) : List Finding :=
  if !enabled then []
  else ((pyLines sql).enumFrom 1).filterMap l002g

/-- The per-word step of rule L003 for line number `i`, content `line`. -/
def l003g (i : Nat) (line : String) (w : String) : Option Finding :=
  if SQL_KEYWORDS.contains (pyLower w) && w != pyUpper w then
    some ⟨"L003", "Keyword \x27" ++ w ++ "\x27 should be UPPERCASE", "info", i,
      max 1 (pyFind line w + 1), some ("Use \x27" ++ pyUpper w ++ "\x27")⟩
  else none

/-- Rule L003 (`rule_uppercase_keywords`): keywords must be upper-case. -/
def rule_uppercase_keywords (sql : String) (enabled : Bool) : List Finding :=
  if !enabled then []
  else ((pyLines sql).enumFrom 1).flatMap fun p =>
    (extractWords p.2).filterMap (l003g p.1 p.2)

/-- Length of the longest common prefix of two character lists. -/
def commonPrefixLen : List Char → List Char → Nat
  | a :: as, b :: bs => if a == b then commonPrefixLen as bs + 1 else 0
  | _, _ => 0

/-- difflib `SequenceMatcher.find_longest_match` with no junk: the longest
common contiguous block of `a` and `b` as `(i, j, size)`, ties broken by
the smallest `i`, then the smallest `j` (the dynamic program updates its
best block only on strictly larger sizes, scanning `i` then `j`
ascending). -/
def bestMatch (a b : List Char) : Nat × Nat × Nat :=
  (List.range a.length).foldl (fun best i =>
    (List.range b.length).foldl (fun best j =>
      let k := commonPrefixLen (a.drop i) (b.drop j)
      if best.2.2 < k then (i, j, k) else best) best) (0, 0, 0)

/-- Total matched size `M` of difflib `get_matching_blocks`: recursively
take the longest block and recurse on both sides.  The fuel argument only
drives termination; `a` strictly shrinks at every level, so
`a.length + 1` steps always suffice. -/
def totalMatchesFuel : Nat → List Char → List Char → Nat
  | 0, _, _ => 0
  | fuel + 1, a, b =>
    let m := bestMatch a b
    if m.2.2 = 0 then 0
    else totalMatchesFuel fuel (a.take m.1) (b.take m.2.1) + m.2.2 +
         totalMatchesFuel fuel (a.drop (m.1 + m.2.2)) (b.drop (m.2.1 + m.2.2))

def totalMatches (a b : List Char) : Nat :=
  totalMatchesFuel (a.length + 1) a b

/-- difflib `SequenceMatcher.ratio()` as an exact rational: `2*M/T`
(`1` when both sequences are empty, following `_calculate_ratio`). -/
def ratioQ (a b : List Char) : ℚ :=
  if a.length + b.length = 0 then 1
  else (2 * totalMatches a b : ℚ) / (a.length + b.length : ℚ)

/-- `ratio(a, b) ≥ 0.86` decided by cross-multiplication:
`2*M/T ≥ 43/50  ↔  100*M ≥ 43*T`. -/
def ratioGeCutoff (a b : List Char) : Bool :=
  decide (43 * (a.length + b.length) ≤ 100 * totalMatches a b)

/-- Is the scored candidate `x` strictly below `y` in the order used by
`heapq.nlargest` on `(ratio, keyword)` pairs (ratio compared by
cross-multiplication, ties broken by the lexicographic keyword order)?
Scored candidates are `(M, T, keyword)` triples with `T > 0`. -/
def scoredLt (x y : Nat × Nat × String) : Bool :=
  x.1 * y.2.1 < y.1 * x.2.1 ||
  (x.1 * y.2.1 == y.1 * x.2.1 && decide (x.2.2 < y.2.2))

/-- difflib `get_close_matches(w, SQL_KEYWORDS, n=1, cutoff=0.86)`:
keep the keywords whose ratio against `w` reaches the cutoff (the
`real_quick_ratio`/`quick_ratio` pre-filters are upper bounds of `ratio`
and do not change this set), then return the single largest by
`(ratio, keyword)`.  As in the source, the keyword is the first and the
word the second sequence of the matcher. -/
def get_close_matches1 (w : String) : Option String :=
  ((SQL_KEYWORDS.filterMap fun k =>
    if ratioGeCutoff k.data w.data then
      some (totalMatches k.data w.data, k.data.length + w.data.length, k)
    else none).foldl (fun best c =>
      match best with
      | none => some c
      | some b => if scoredLt b c then some c else some b) none).map
    fun b => b.2.2

/-- The per-word step of rule L004 for line number `i`, content `line`
(`low = w.lower()` is written out at each use). -/
def l004g (i : Nat) (line : String) (w : String) : Option Finding :=
  if !SQL_KEYWORDS.contains (pyLower w) && 3 ≤ (pyLower w).length then
    match get_close_matches1 (pyLower w) with
    | some c =>
      some ⟨"L004",
        "Possible keyword typo \x27" ++ w ++ "\x27 (did you mean \x27" ++
          pyUpper c ++ "\x27)?",
        "error", i, max 1 (pyFind line w + 1),
        some ("Replace with " ++ pyUpper c)⟩
    | none => none
  else none

/-- Rule L004 (`rule_typo_keywords`): flag probable keyword typos. -/
def rule_typo_keywords (sql : String) (enabled : Bool) : List Finding :=
  if !enabled then []
  else ((pyLines sql).enumFrom 1).flatMap fun p =>
    (extractWords p.2).filterMap (l004g p.1 p.2)

/-- A user regex pattern.  Python `re` is an external collaborator: a
pattern string either compiles, in which case `re.search(pattern, line,
re.IGNORECASE)` is the function giving the start index of the first match
in a line, or it is malformed, in which case `re.search` raises
`re.error` carrying the error text. -/
inductive RePattern where
  | valid (search : String → Option Nat)
  | malformed (err : String)

/-- One stored custom rule (`st.session_state["custom_rules"]` entry). -/
structure CustomRule where
  pattern : RePattern
  message : String
  severity : String

/-- The findings of one custom rule (registration index `ridx`, 1-based)
over all lines.  A malformed pattern raises at its first `re.search`
call; since `_lines` is never empty that call always happens, so the
whole evaluation of the rule errors before producing anything. -/
def custom_rule_findings (sql : String) (ridx : Nat) (rule : CustomRule) :
    Except String (List Finding) :=
  match rule.pattern with
  | .malformed e => .error e
  | .valid search =>
    .ok (((pyLines sql).enumFrom 1).filterMap fun p =>
      (search p.2).map fun (s : Nat) =>
        ⟨"CUST" ++ toString ridx, rule.message, rule.severity, p.1,
          max 1 ((s : Int) + 1), none⟩)

/-- The loop of `run_custom_rules` from rule index `ridx` on: findings
accumulate in rule order, and an exception raised by any rule propagates
and aborts the whole evaluation. -/
def run_custom_rules_from (sql : String) : Nat → List CustomRule → Except String (List Finding)
  | _, [] => .ok []
  | ridx, rule :: rest =>
    match custom_rule_findings sql ridx rule with
    | .error e => .error e
    | .ok fs =>
      match run_custom_rules_from sql (ridx + 1) rest with
      | .error e => .error e
      | .ok rest2 => .ok (fs ++ rest2)

/-- `run_custom_rules`: evaluate every stored custom rule (the stored
collection is passed explicitly; a missing session key is the empty
collection). -/
def run_custom_rules (sql : String) (customs : List CustomRule) :
    Except String (List Finding) :=
  run_custom_rules_from sql 1 customs

/-- `severity_rank.get(severity, 9)` from `run_lint`. -/
def severity_rank (sev : String) : Nat :=
  if sev == "error" then 0
  else if sev == "warning" then 1
  else if sev == "info" then 2
  else 9

/-- Python lexicographic (code-point) `≤` on strings, as character lists. -/
def strLeB : List Char → List Char → Bool
  | [], _ => true
  | _ :: _, [] => false
  | a :: as, b :: bs =>
    if a.val.toNat < b.val.toNat then true
    else if b.val.toNat < a.val.toNat then false
    else strLeB as bs

/-- The sort key of `run_lint`:
`(severity_rank.get(f.severity, 9), f.line, f.rule_id)`. -/
def findingKey (f : Finding) : Nat × Nat × String :=
  (severity_rank f.severity, f.line, f.rule_id)

/-- Lexicographic comparison of two sort keys, with `rule_id` compared in
Python string order. -/
def keyLE (x y : Nat × Nat × String) : Bool :=
  if x.1 < y.1 then true
  else if y.1 < x.1 then false
  else if x.2.1 < y.2.1 then true
  else if y.2.1 < x.2.1 then false
  else strLeB x.2.2.data y.2.2.data

/-- The order in which `findings.sort(key=...)` sorts findings. -/
def findingOrder (a b : Finding) : Prop :=
  keyLE (findingKey a) (findingKey b) = true

instance : DecidableRel findingOrder := fun a b =>
  inferInstanceAs (Decidable (keyLE (findingKey a) (findingKey b) = true))

/-- The enabled flags of the four built-in rules (the `rules` dict). -/
structure RuleConfig where
  semicolon : Bool
  select_star : Bool
  upper_keywords : Bool
  typo_keywords : Bool

/-- The concatenation phase of `run_lint`: all built-in rules per their
flags, then the custom rules; an exception from the custom-rule loop
propagates. -/
def gather_findings (sql : String) (cfg : RuleConfig) (customs : List CustomRule) :
    Except String (List Finding) :=
  match run_custom_rules sql customs with
  | .error e => .error e
  | .ok custom_fs =>
    .ok (rule_semicolon sql cfg.semicolon ++
         rule_no_select_star sql cfg.select_star ++
         rule_uppercase_keywords sql cfg.upper_keywords ++
         rule_typo_keywords sql cfg.typo_keywords ++
         custom_fs)

/-- `run_lint`: gather all findings, then `findings.sort(key=...)`, a
stable ascending sort by `findingKey`; the stable sort is modelled by
insertion sort, which computes the same list as any stable sort by the
same key. -/
def run_lint (sql : String) (cfg : RuleConfig) (customs : List CustomRule) :
    Except String (List Finding) :=
  match gather_findings sql cfg customs with
  | .error e => .error e
  | .ok fs => .ok (fs.insertionSort findingOrder)

/-- `auto_fix`: `sqlparse.format` is an external reformatter, modelled as
a function argument taking the text and the `upper` flag; afterwards the
semicolon policy appends `";\n"` to the right-stripped text when the
stripped reformatted text does not already end with `;`. -/
def auto_fix (reformat : String → Bool → String) (sql : String)
    (upper semicolon : Bool) : String :=
  let formatted := reformat sql upper
  if semicolon && !endsWithSemicolon (pyStrip formatted) then
    pyRstrip formatted ++ ";\n"
  else formatted

/-- Does a severity string belong to the closed severity set of the data
model? -/
def recognized_severity (sev : String) : Bool :=
  sev == "error" || sev == "warning" || sev == "info"

theorem pyLines_length_pos (s : String) : 1 ≤ (pyLines s).length := by
  unfold pyLines
  cases splitlinesAux s.data [] <;> simp

/-- C5: `split_lines` returns a non-empty sequence for every input; the
empty string yields exactly one element, the empty string. -/
theorem split_lines_nonempty :
    (∀ s : String, 1 ≤ (pyLines s).length) ∧ pyLines "" = [""] :=
  ⟨pyLines_length_pos, rfl⟩

/-- C4: the semicolon rule produces no findings on empty or
whitespace-only input even when enabled, and no findings at all when
disabled. -/
theorem rule_semicolon_trivial_cases (sql : String) :
    (pyStrip sql = "" → rule_semicolon sql true = []) ∧
    rule_semicolon sql false = [] := by
  constructor
  · intro h
    simp [rule_semicolon, h]
  · simp [rule_semicolon]

theorem rule_semicolon_trivial_cases_witness :
    rule_semicolon "  \t \n " true = [] ∧ rule_semicolon "select 1" false = [] :=
  ⟨(rule_semicolon_trivial_cases "  \t \n ").1 (by decide),
   (rule_semicolon_trivial_cases "select 1").2⟩

/-- C3: on input that is not blank and whose stripped form does not end
with `;`, the enabled semicolon rule returns exactly one warning finding
at line `split_lines(sql).length`, column 1, suggesting a trailing
semicolon. -/
theorem rule_semicolon_missing (sql : String) (h1 : pyStrip sql ≠ "")
    (h2 : endsWithSemicolon (pyStrip sql) = false) :
    rule_semicolon sql true =
      [⟨"L001", "Statement should end with \x27;\x27", "warning",
        (pyLines sql).length, 1, some "Add trailing \x27;\x27"⟩] := by
  simp [rule_semicolon, h1, h2]

theorem rule_semicolon_missing_witness :
    pyStrip "select 1" ≠ "" ∧ endsWithSemicolon (pyStrip "select 1") = false ∧
    rule_semicolon "select 1" true =
      [⟨"L001", "Statement should end with \x27;\x27", "warning",
        1, 1, some "Add trailing \x27;\x27"⟩] :=
  ⟨by decide, by decide, rule_semicolon_missing "select 1" (by decide) (by decide)⟩

theorem strLeB_refl : ∀ a, strLeB a a = true
  | [] => rfl
  | a :: as => by
    unfold strLeB
    simp [strLeB_refl as]

theorem strLeB_cons_iff (a b : Char) (as bs : List Char) :
    strLeB (a :: as) (b :: bs) = true ↔
      a.val.toNat < b.val.toNat ∨
        (a.val.toNat = b.val.toNat ∧ strLeB as bs = true) := by
  conv_lhs => rw [strLeB]
  split_ifs with h1 h2
  · simp [h1]
  · simp
    omega
  · have h : a.val.toNat = b.val.toNat := by omega
    simp [h]

theorem strLeB_total : ∀ a b, strLeB a b = true ∨ strLeB b a = true
  | [], _ => Or.inl rfl
  | _ :: _, [] => Or.inr rfl
  | a :: as, b :: bs => by
    rw [strLeB_cons_iff, strLeB_cons_iff]
    rcases Nat.lt_trichotomy a.val.toNat b.val.toNat with h | h | h
    · exact Or.inl (Or.inl h)
    · rcases strLeB_total as bs with h2 | h2
      · exact Or.inl (Or.inr ⟨h, h2⟩)
      · exact Or.inr (Or.inr ⟨h.symm, h2⟩)
    · exact Or.inr (Or.inl h)

theorem strLeB_trans : ∀ a b c, strLeB a b = true → strLeB b c = true →
    strLeB a c = true
  | [], _, _ => fun _ _ => rfl
  | _ :: _, [], _ => fun h _ => by simp [strLeB] at h
  | _ :: _, _ :: _, [] => fun _ h => by simp [strLeB] at h
  | a :: as, b :: bs, c :: cs => fun h1 h2 => by
    rw [strLeB_cons_iff] at h1 h2 ⊢
    rcases h1 with h1 | ⟨h1e, h1r⟩
    · rcases h2 with h2 | ⟨h2e, _⟩
      · exact Or.inl (by omega)
      · exact Or.inl (by omega)
    · rcases h2 with h2 | ⟨h2e, h2r⟩
      · exact Or.inl (by omega)
      · exact Or.inr ⟨by omega, strLeB_trans as bs cs h1r h2r⟩

theorem keyLE_iff (x y : Nat × Nat × String) :
    keyLE x y = true ↔
      x.1 < y.1 ∨
        (x.1 = y.1 ∧
          (x.2.1 < y.2.1 ∨
            (x.2.1 = y.2.1 ∧ strLeB x.2.2.data y.2.2.data = true))) := by
  unfold keyLE
  split_ifs with h1 h2 h3 h4
  · simp [h1]
  · simp
    omega
  · constructor
    · intro _
      exact Or.inr ⟨by omega, Or.inl h3⟩
    · intro _
      rfl
  · simp
    omega
  · constructor
    · intro h
      exact Or.inr ⟨by omega, Or.inr ⟨by omega, h⟩⟩
    · rintro (h | ⟨-, h | ⟨-, h⟩⟩)
      · omega
      · omega
      · exact h

theorem keyLE_refl (x : Nat × Nat × String) : keyLE x x = true := by
  rw [keyLE_iff]
  exact Or.inr ⟨rfl, Or.inr ⟨rfl, strLeB_refl _⟩⟩

theorem keyLE_total (x y : Nat × Nat × String) :
    keyLE x y = true ∨ keyLE y x = true := by
  rw [keyLE_iff, keyLE_iff]
  rcases Nat.lt_trichotomy x.1 y.1 with h | h | h
  · exact Or.inl (Or.inl h)
  · rcases Nat.lt_trichotomy x.2.1 y.2.1 with h2 | h2 | h2
    · exact Or.inl (Or.inr ⟨h, Or.inl h2⟩)
    · rcases strLeB_total x.2.2.data y.2.2.data with h3 | h3
      · exact Or.inl (Or.inr ⟨h, Or.inr ⟨h2, h3⟩⟩)
      · exact Or.inr (Or.inr ⟨h.symm, Or.inr ⟨h2.symm, h3⟩⟩)
    · exact Or.inr (Or.inr ⟨h.symm, Or.inl h2⟩)
  · exact Or.inr (Or.inl h)

theorem keyLE_trans (x y z : Nat × Nat × String) (h1 : keyLE x y = true)
    (h2 : keyLE y z = true) : keyLE x z = true := by
  rw [keyLE_iff] at h1 h2 ⊢
  rcases h1 with h1 | ⟨h1e, h1r⟩
  · rcases h2 with h2 | ⟨h2e, -⟩
    · exact Or.inl (by omega)
    · exact Or.inl (by omega)
  · rcases h2 with h2 | ⟨h2e, h2r⟩
    · exact Or.inl (by omega)
    · rcases h1r with h1r | ⟨h1re, h1rr⟩
      · rcases h2r with h2r | ⟨h2re, -⟩
        · exact Or.inr ⟨by omega, Or.inl (by omega)⟩
        · exact Or.inr ⟨by omega, Or.inl (by omega)⟩
      · rcases h2r with h2r | ⟨h2re, h2rr⟩
        · exact Or.inr ⟨by omega, Or.inl (by omega)⟩
        · exact Or.inr ⟨by omega,
            Or.inr ⟨by omega, strLeB_trans _ _ _ h1rr h2rr⟩⟩

theorem findingOrder_trans : ∀ a b c : Finding, findingOrder a b →
    findingOrder b c → findingOrder a c :=
  fun _ _ _ h1 h2 => keyLE_trans _ _ _ h1 h2

theorem findingOrder_total : ∀ a b : Finding, findingOrder a b ∨ findingOrder b a :=
  fun a b => keyLE_total (findingKey a) (findingKey b)

theorem run_lint_ok_eq (sql : String) (cfg : RuleConfig)
    (customs : List CustomRule) (fs gs : List Finding)
    (hrun : run_lint sql cfg customs = Except.ok fs)
    (hg : gather_findings sql cfg customs = Except.ok gs) :
    fs = gs.insertionSort findingOrder := by
  unfold run_lint at hrun
  rw [hg] at hrun
  cases hrun
  rfl

theorem run_lint_ok_sorted (sql : String) (cfg : RuleConfig)
    (customs : List CustomRule) (fs : List Finding)
    (hrun : run_lint sql cfg customs = Except.ok fs) :
    fs.Sorted findingOrder := by
  haveI : IsTrans Finding findingOrder := ⟨findingOrder_trans⟩
  haveI : IsTotal Finding findingOrder := ⟨findingOrder_total⟩
  cases hg : gather_findings sql cfg customs with
  | error e =>
    unfold run_lint at hrun
    rw [hg] at hrun
    cases hrun
  | ok gs =>
    rw [run_lint_ok_eq sql cfg customs fs gs hrun hg]
    exact List.sorted_insertionSort findingOrder gs

/-- C2: the finding list returned by `run_lint` is sorted ascending by
`(severity rank, line, rule_id)` and the sort is stable: for every key
value, the findings carrying that key appear in exactly the concatenation
order in which the rules produced them. -/
theorem run_lint_sorted_and_stable (sql : String) (cfg : RuleConfig)
    (customs : List CustomRule) (fs gs : List Finding)
    (hrun : run_lint sql cfg customs = Except.ok fs)
    (hg : gather_findings sql cfg customs = Except.ok gs)
    (k : Nat × Nat × String) :
    fs.Sorted findingOrder ∧
    fs.filter (fun f => findingKey f == k) =
      gs.filter (fun f => findingKey f == k) := by
  refine ⟨run_lint_ok_sorted sql cfg customs fs hrun, ?_⟩
  have hfs := run_lint_ok_eq sql cfg customs fs gs hrun hg
  subst hfs
  set p : Finding → Bool := fun f => findingKey f == k with hp
  have hmemp : ∀ f, p f = true → findingKey f = k := by
    intro f hf
    rw [hp] at hf
    exact beq_iff_eq.mp hf
  have hpairwise : (gs.filter p).Pairwise findingOrder := by
    apply List.pairwise_of_forall_mem_list
    intro a ha b hb
    have hka := hmemp a (List.mem_filter.mp ha).2
    have hkb := hmemp b (List.mem_filter.mp hb).2
    unfold findingOrder
    rw [hka, hkb]
    exact keyLE_refl k
  have hsub : List.Sublist (gs.filter p) (gs.insertionSort findingOrder) :=
    List.sublist_insertionSort hpairwise (List.filter_sublist gs)
  have hsub2 : List.Sublist (gs.filter p)
      ((gs.insertionSort findingOrder).filter p) := by
    have hcp : (gs.filter p).filter p = gs.filter p :=
      List.filter_eq_self.mpr (fun a ha => (List.mem_filter.mp ha).2)
    have := List.Sublist.filter p hsub
    rwa [hcp] at this
  have hlen : (gs.filter p).length =
      ((gs.insertionSort findingOrder).filter p).length :=
    (((List.perm_insertionSort findingOrder gs).filter p).length_eq).symm
  exact (hsub2.eq_of_length hlen).symm

theorem run_lint_sorted_and_stable_witness :
    ([⟨"L002", "Avoid SELECT * (enumerate columns)", "error", 1, 1,
        some "List explicit columns"⟩,
      ⟨"L001", "Statement should end with \x27;\x27", "warning", 1, 1,
        some "Add trailing \x27;\x27"⟩,
      ⟨"L003", "Keyword \x27select\x27 should be UPPERCASE", "info", 1, 1,
        some "Use \x27SELECT\x27"⟩,
      ⟨"L003", "Keyword \x27from\x27 should be UPPERCASE", "info", 1, 10,
        some "Use \x27FROM\x27"⟩] : List Finding).Sorted findingOrder ∧
    ([⟨"L002", "Avoid SELECT * (enumerate columns)", "error", 1, 1,
        some "List explicit columns"⟩,
      ⟨"L001", "Statement should end with \x27;\x27", "warning", 1, 1,
        some "Add trailing \x27;\x27"⟩,
      ⟨"L003", "Keyword \x27select\x27 should be UPPERCASE", "info", 1, 1,
        some "Use \x27SELECT\x27"⟩,
      ⟨"L003", "Keyword \x27from\x27 should be UPPERCASE", "info", 1, 10,
        some "Use \x27FROM\x27"⟩] : List Finding).filter
          (fun f => findingKey f == (2, 1, "L003")) =
      ([⟨"L001", "Statement should end with \x27;\x27", "warning", 1, 1,
          some "Add trailing \x27;\x27"⟩,
        ⟨"L002", "Avoid SELECT * (enumerate columns)", "error", 1, 1,
          some "List explicit columns"⟩,
        ⟨"L003", "Keyword \x27select\x27 should be UPPERCASE", "info", 1, 1,
          some "Use \x27SELECT\x27"⟩,
        ⟨"L003", "Keyword \x27from\x27 should be UPPERCASE", "info", 1, 10,
          some "Use \x27FROM\x27"⟩] : List Finding).filter
            (fun f => findingKey f == (2, 1, "L003")) :=
  run_lint_sorted_and_stable "select * from t" ⟨true, true, true, true⟩ []
    _ _ rfl rfl (2, 1, "L003")

theorem mem_enumFrom_line {n i : Nat} {x : String} {ls : List String}
    (h : (i, x) ∈ ls.enumFrom n) : n ≤ i ∧ i < n + ls.length ∧ x ∈ ls := by
  obtain ⟨h1, h2, h3⟩ := List.mem_enumFrom h
  exact ⟨h1, h2, h3 ▸ List.getElem_mem _⟩

theorem rule_semicolon_bounds (sql : String) (e : Bool) (f : Finding)
    (h : f ∈ rule_semicolon sql e) :
    1 ≤ f.line ∧ f.line ≤ (pyLines sql).length ∧ 1 ≤ f.col := by
  unfold rule_semicolon at h
  split at h
  · simp at h
  · split at h
    · rw [List.mem_singleton] at h
      subst h
      exact ⟨pyLines_length_pos sql, le_refl _, by norm_num⟩
    · simp at h

theorem rule_no_select_star_bounds (sql : String) (e : Bool) (f : Finding)
    (h : f ∈ rule_no_select_star sql e) :
    1 ≤ f.line ∧ f.line ≤ (pyLines sql).length ∧ 1 ≤ f.col := by
  unfold rule_no_select_star at h
  split at h
  · simp at h
  · obtain ⟨⟨i, line⟩, hp, hg⟩ := List.mem_filterMap.mp h
    unfold l002g at hg
    split at hg
    · cases hg
      obtain ⟨h1, h2, -⟩ := mem_enumFrom_line hp
      dsimp only [mkL002]
      exact ⟨h1, by omega, le_max_left 1 _⟩
    · cases hg

theorem rule_uppercase_keywords_bounds (sql : String) (e : Bool) (f : Finding)
    (h : f ∈ rule_uppercase_keywords sql e) :
    1 ≤ f.line ∧ f.line ≤ (pyLines sql).length ∧ 1 ≤ f.col := by
  unfold rule_uppercase_keywords at h
  split at h
  · simp at h
  · obtain ⟨⟨i, line⟩, hp, h2⟩ := List.mem_flatMap.mp h
    obtain ⟨w, -, hg⟩ := List.mem_filterMap.mp h2
    unfold l003g at hg
    split at hg
    · cases hg
      obtain ⟨h1, h2, -⟩ := mem_enumFrom_line hp
      dsimp only
      exact ⟨h1, by omega, le_max_left 1 _⟩
    · cases hg

theorem rule_typo_keywords_bounds (sql : String) (e : Bool) (f : Finding)
    (h : f ∈ rule_typo_keywords sql e) :
    1 ≤ f.line ∧ f.line ≤ (pyLines sql).length ∧ 1 ≤ f.col := by
  unfold rule_typo_keywords at h
  split at h
  · simp at h
  · obtain ⟨⟨i, line⟩, hp, h2⟩ := List.mem_flatMap.mp h
    obtain ⟨w, -, hg⟩ := List.mem_filterMap.mp h2
    unfold l004g at hg
    split at hg
    · split at hg
      · cases hg
        obtain ⟨h1, h2, -⟩ := mem_enumFrom_line hp
        dsimp only
        exact ⟨h1, by omega, le_max_left 1 _⟩
      · cases hg
    · cases hg

theorem custom_rule_findings_bounds (sql : String) (ridx : Nat)
    (rule : CustomRule) (fs : List Finding)
    (hok : custom_rule_findings sql ridx rule = Except.ok fs) (f : Finding)
    (hf : f ∈ fs) :
    1 ≤ f.line ∧ f.line ≤ (pyLines sql).length ∧ 1 ≤ f.col := by
  unfold custom_rule_findings at hok
  split at hok
  · cases hok
  · cases hok
    obtain ⟨⟨i, line⟩, hp, hmap⟩ := List.mem_filterMap.mp hf
    rw [Option.map_eq_some'] at hmap
    obtain ⟨s, -, hfe⟩ := hmap
    cases hfe
    obtain ⟨h1, h2, -⟩ := mem_enumFrom_line hp
    dsimp only
    exact ⟨h1, by omega, le_max_left 1 _⟩

theorem run_custom_rules_from_bounds (sql : String) :
    ∀ (customs : List CustomRule) (ridx : Nat) (fs : List Finding),
    run_custom_rules_from sql ridx customs = Except.ok fs →
    ∀ f ∈ fs, 1 ≤ f.line ∧ f.line ≤ (pyLines sql).length ∧ 1 ≤ f.col := by
  intro customs
  induction customs with
  | nil =>
    intro ridx fs hok f hf
    cases hok
    simp at hf
  | cons rule rest ih =>
    intro ridx fs hok f hf
    unfold run_custom_rules_from at hok
    split at hok
    · cases hok
    · rename_i fs1 hcr
      split at hok
      · cases hok
      · rename_i fs2 hrest
        cases hok
        rcases List.mem_append.mp hf with hf | hf
        · exact custom_rule_findings_bounds sql ridx rule fs1 hcr f hf
        · exact ih (ridx + 1) fs2 hrest f hf

/-- C8: every finding returned by `run_lint` points inside the input text:
`1 ≤ line ≤ number_of_lines` (an empty text counting as one line) and
`col ≥ 1`. -/
theorem run_lint_findings_in_bounds (sql : String) (cfg : RuleConfig)
    (customs : List CustomRule) (fs : List Finding)
    (hrun : run_lint sql cfg customs = Except.ok fs) :
    ∀ f ∈ fs, 1 ≤ f.line ∧ f.line ≤ (pyLines sql).length ∧ 1 ≤ f.col := by
  intro f hf
  cases hg : gather_findings sql cfg customs with
  | error e =>
    unfold run_lint at hrun
    rw [hg] at hrun
    cases hrun
  | ok gs =>
    rw [run_lint_ok_eq sql cfg customs fs gs hrun hg] at hf
    rw [List.mem_insertionSort] at hf
    unfold gather_findings at hg
    split at hg
    · cases hg
    · rename_i cfs heq
      cases hg
      rcases List.mem_append.mp hf with hf | hf
      rotate_left
      · exact run_custom_rules_from_bounds sql customs 1 cfs heq f hf
      rcases List.mem_append.mp hf with hf | hf
      rotate_left
      · exact rule_typo_keywords_bounds sql _ f hf
      rcases List.mem_append.mp hf with hf | hf
      rotate_left
      · exact rule_uppercase_keywords_bounds sql _ f hf
      rcases List.mem_append.mp hf with hf | hf
      · exact rule_semicolon_bounds sql _ f hf
      · exact rule_no_select_star_bounds sql _ f hf

theorem run_lint_findings_in_bounds_witness :
    1 ≤ (Finding.mk "L001" "Statement should end with \x27;\x27" "warning"
        1 1 (some "Add trailing \x27;\x27")).line ∧
    (Finding.mk "L001" "Statement should end with \x27;\x27" "warning"
        1 1 (some "Add trailing \x27;\x27")).line ≤ (pyLines "select 1").length ∧
    1 ≤ (Finding.mk "L001" "Statement should end with \x27;\x27" "warning"
        1 1 (some "Add trailing \x27;\x27")).col :=
  run_lint_findings_in_bounds "select 1" ⟨true, false, false, false⟩ [] _ rfl
    _ (by decide)

theorem severity_rank_le_two_iff (sev : String) :
    severity_rank sev ≤ 2 ↔ recognized_severity sev = true := by
  unfold severity_rank recognized_severity
  split_ifs with h1 h2 h3 <;> simp_all

theorem keyLE_rank_le (x y : Nat × Nat × String) (h : keyLE x y = true) :
    x.1 ≤ y.1 := by
  rw [keyLE_iff] at h
  rcases h with h | ⟨h, -⟩ <;> omega

/-- C10: in the sorted output of `run_lint`, every finding that precedes a
finding of recognized severity is itself of recognized severity — any
finding with an unrecognized severity string (rank 9, strictly above the
three recognized ranks) is placed after all recognized ones. -/
theorem run_lint_unrecognized_severity_last (sql : String) (cfg : RuleConfig)
    (customs : List CustomRule) (fs : List Finding)
    (hrun : run_lint sql cfg customs = Except.ok fs)
    (i j : Nat) (hi : i < fs.length) (hj : j < fs.length) (hij : i ≤ j)
    (hrec : recognized_severity (fs.get ⟨j, hj⟩).severity = true) :
    recognized_severity (fs.get ⟨i, hi⟩).severity = true := by
  rcases Nat.lt_or_ge i j with hlt | hge
  · have hsorted := run_lint_ok_sorted sql cfg customs fs hrun
    have hrel := List.pairwise_iff_getElem.mp hsorted i j hi hj hlt
    have hle := keyLE_rank_le _ _ hrel
    unfold findingKey at hle
    dsimp only at hle
    rw [← severity_rank_le_two_iff] at hrec ⊢
    simp only [List.get_eq_getElem] at hrec ⊢
    omega
  · have hij2 : i = j := by omega
    subst hij2
    exact hrec

theorem run_lint_unrecognized_severity_last_witness :
    recognized_severity
      (([⟨"L001", "Statement should end with \x27;\x27", "warning", 1, 1,
            some "Add trailing \x27;\x27"⟩,
          ⟨"L003", "Keyword \x27select\x27 should be UPPERCASE", "info", 1, 1,
            some "Use \x27SELECT\x27"⟩,
          ⟨"CUST1", "m", "fatal", 1, 1, none⟩] : List Finding).get
            ⟨0, by decide⟩).severity = true :=
  run_lint_unrecognized_severity_last "select 1" ⟨true, true, true, true⟩
    [⟨RePattern.valid (fun _ => some 0), "m", "fatal"⟩] _ rfl
    0 1 (by decide) (by decide) (by decide) (by decide)

theorem getLast?_dropWhile_concat (p : Char → Bool) (c : Char)
    (hc : p c = false) :
    ∀ l : List Char, ((l ++ [c]).dropWhile p).getLast? = some c := by
  intro l
  induction l with
  | nil => simp [List.dropWhile, hc]
  | cons a l ih =>
    by_cases h : p a
    · simpa [List.dropWhile, h] using ih
    · rw [List.cons_append, List.dropWhile_cons, if_neg (by simpa using h),
        ← List.cons_append, List.getLast?_concat]

theorem pyStrip_append_semi_nl_ends (s : String) :
    endsWithSemicolon (pyStrip (s ++ ";\n")) = true := by
  have hnl : pyIsSpace (Char.ofNat 10) = true := by decide
  have hsemi : pyIsSpace (Char.ofNat 59) = false := by decide
  unfold endsWithSemicolon pyStrip pyLstrip pyRstrip
  simp only [String.data_append]
  show (((((s.data ++ [';', Char.ofNat 10]).reverse.dropWhile
    pyIsSpace).reverse).dropWhile pyIsSpace).getLast? == some ';') = true
  rw [List.reverse_append]
  simp only [List.reverse_cons, List.reverse_nil, List.nil_append,
    List.cons_append, List.dropWhile_cons, hnl, hsemi]
  simp only [if_true, if_false, Bool.false_eq_true, List.reverse_cons,
    List.reverse_reverse]
  rw [getLast?_dropWhile_concat pyIsSpace ';' (by decide) s.data]
  rfl

/-- C9: with `ensure_semicolon` true, the trimmed output of `auto_fix`
always ends with `;`; when the trimmed reformatted text did not already
end with `;`, the output is exactly the right-stripped reformatted text
with the suffix `";\n"` appended. -/
theorem auto_fix_ensures_semicolon (reformat : String → Bool → String)
    (sql : String) (upper : Bool) :
    endsWithSemicolon (pyStrip (auto_fix reformat sql upper true)) = true ∧
    (endsWithSemicolon (pyStrip (reformat sql upper)) = false →
      auto_fix reformat sql upper true =
        pyRstrip (reformat sql upper) ++ ";\n") := by
  unfold auto_fix
  cases h : endsWithSemicolon (pyStrip (reformat sql upper)) with
  | true =>
    constructor
    · simp [h]
    · intro hc
      cases hc
  | false =>
    constructor
    · simp only [h, Bool.not_false, Bool.and_true, if_true]
      exact pyStrip_append_semi_nl_ends _
    · intro _
      simp [h]

theorem auto_fix_ensures_semicolon_witness :
    endsWithSemicolon
      (pyStrip (auto_fix (fun s _ => s) "select 1" true true)) = true ∧
    auto_fix (fun s _ => s) "select 1" true true =
      pyRstrip "select 1" ++ ";\n" :=
  ⟨(auto_fix_ensures_semicolon (fun s _ => s) "select 1" true).1,
   (auto_fix_ensures_semicolon (fun s _ => s) "select 1" true).2 (by decide)⟩

/-- C1 (code evidence): a malformed custom-rule pattern aborts the whole
lint pass — `run_lint` propagates the `re.error` and returns no finding
list at all, while the same input without the malformed rule does produce
findings (which the aborted run fails to deliver). -/
theorem run_lint_malformed_custom_aborts :
    run_lint "select 1" ⟨true, true, true, true⟩
      [⟨RePattern.malformed "re.error: bad pattern", "no deletes", "error"⟩] =
      Except.error "re.error: bad pattern" ∧
    run_lint "select 1" ⟨true, true, true, true⟩ [] =
      Except.ok
        [⟨"L001", "Statement should end with \x27;\x27", "warning", 1, 1,
          some "Add trailing \x27;\x27"⟩,
         ⟨"L003", "Keyword \x27select\x27 should be UPPERCASE", "info", 1, 1,
          some "Use \x27SELECT\x27"⟩] :=
  ⟨rfl, rfl⟩

/-- C6 (counterexample): on the line `"reselect select *"` the pattern
`(?i)\bselect\s+\*` matches the `select` keyword occurrence at 0-based
index 9 (1-based column 10), but the emitted finding carries column 3,
because the code uses `line.lower().find("select")`, which hits the
`select` inside the word `reselect`. -/
theorem rule_no_select_star_col_counterexample :
    searchSelectStar "reselect select *" = some 9 ∧
    rule_no_select_star "reselect select *" true =
      [⟨"L002", "Avoid SELECT * (enumerate columns)", "error", 1, 3,
        some "List explicit columns"⟩] ∧
    (3 : Int) ≠ (9 : Int) + 1 :=
  ⟨rfl, rfl, by decide⟩

theorem l002_line_lb (n : Nat) (ls : List String) (f : Finding)
    (h : f ∈ (ls.enumFrom n).filterMap l002g) : n ≤ f.line := by
  obtain ⟨⟨i, line⟩, hp, hg⟩ := List.mem_filterMap.mp h
  unfold l002g at hg
  split at hg
  · cases hg
    obtain ⟨h1, -, -⟩ := mem_enumFrom_line hp
    dsimp only [mkL002]
    exact h1
  · cases hg

theorem l002g_eq (i : Nat) (line : String) :
    l002g (i, line) =
      if (searchSelectStar line).isSome then some (mkL002 i line) else none :=
  rfl

theorem filterMap_l002_filter_line : ∀ (ls : List String) (n i : Nat),
    i < ls.length →
    ((ls.enumFrom n).filterMap l002g).filter (fun f => f.line == n + i) =
      (if (searchSelectStar (ls.getD i "")).isSome then
        [mkL002 (n + i) (ls.getD i "")] else []) := by
  intro ls
  induction ls with
  | nil =>
    intro n i hi
    exact absurd hi (Nat.not_lt_zero i)
  | cons l ls ih =>
    intro n i hi
    rw [List.enumFrom_cons, List.filterMap_cons, l002g_eq]
    have hrest : ∀ m, m < n + 1 →
        ((ls.enumFrom (n + 1)).filterMap l002g).filter
          (fun f => f.line == m) = [] := by
      intro m hm
      rw [List.filter_eq_nil_iff]
      intro f hf
      have hlb := l002_line_lb (n + 1) ls f hf
      simp only [beq_iff_eq]
      omega
    cases i with
    | zero =>
      simp only [Nat.add_zero, List.getD_cons_zero]
      cases hsome : (searchSelectStar l).isSome
      · simp only [hsome, Bool.false_eq_true, if_false]
        exact hrest n (by omega)
      · simp only [hsome, if_true]
        rw [List.filter_cons]
        simp only [mkL002, beq_self_eq_true, if_true]
        rw [hrest n (by omega)]
    | succ i =>
      simp only [List.getD_cons_succ]
      have hstep : n + 1 + i = n + (i + 1) := by omega
      have hlen : i < ls.length := by
        simpa using Nat.lt_of_succ_lt_succ hi
      cases hsome : (searchSelectStar l).isSome
      · simp only [hsome, Bool.false_eq_true, if_false]
        rw [← hstep]
        exact ih (n + 1) i hlen
      · simp only [hsome, if_true]
        rw [List.filter_cons]
        have hne : ((mkL002 n l).line == n + (i + 1)) = false := by
          simp only [mkL002, beq_eq_false_iff_ne]
          omega
        rw [hne]
        simp only [Bool.false_eq_true, if_false]
        rw [← hstep]
        exact ih (n + 1) i hlen

/-- C6 (amended): for every line of the input, the enabled L002 rule
emits exactly one finding when the line matches `(?i)\bselect\s+\*` and
none otherwise; the finding has severity `error` and its column is
`max(1, 1 + index of the first occurrence of the substring "select" in
the lowercased line)` — the first substring occurrence, not necessarily
the matched keyword occurrence. -/
theorem rule_no_select_star_per_line (sql : String) (i : Nat)
    (hi : i < (pyLines sql).length) :
    (rule_no_select_star sql true).filter (fun f => f.line == 1 + i) =
      (if (searchSelectStar ((pyLines sql).getD i "")).isSome then
        [mkL002 (1 + i) ((pyLines sql).getD i "")] else []) := by
  unfold rule_no_select_star
  simp only [Bool.not_true, Bool.false_eq_true, if_false]
  exact filterMap_l002_filter_line (pyLines sql) 1 i hi

theorem rule_no_select_star_per_line_witness :
    (rule_no_select_star "reselect select *" true).filter
      (fun f => f.line == 1 + 0) = [mkL002 (1 + 0) "reselect select *"] :=
  rule_no_select_star_per_line "reselect select *" 0 (by decide)

theorem foldl_pickBest_mem :
    ∀ (l : List (Nat × Nat × String)) (acc : Option (Nat × Nat × String))
      (b : Nat × Nat × String),
    l.foldl (fun best c =>
      match best with
      | none => some c
      | some b2 => if scoredLt b2 c then some c else some b2) acc = some b →
    b ∈ l ∨ acc = some b := by
  intro l
  induction l with
  | nil =>
    intro acc b h
    exact Or.inr h
  | cons c cs ih =>
    intro acc b h
    rw [List.foldl_cons] at h
    rcases ih _ b h with hmem | hacc
    · exact Or.inl (List.mem_cons_of_mem c hmem)
    · cases acc with
      | none =>
        cases hacc
        exact Or.inl (List.mem_cons_self c cs)
      | some b2 =>
        dsimp only at hacc
        split at hacc
        · cases hacc
          exact Or.inl (List.mem_cons_self c cs)
        · exact Or.inr hacc

theorem get_close_matches1_sound (w : String) (c : String)
    (h : get_close_matches1 w = some c) :
    c ∈ SQL_KEYWORDS ∧ ratioGeCutoff c.data w.data = true := by
  unfold get_close_matches1 at h
  rw [Option.map_eq_some'] at h
  obtain ⟨b, hb, hbc⟩ := h
  rcases foldl_pickBest_mem _ none b hb with hmem | habs
  · obtain ⟨k, hk, hsome⟩ := List.mem_filterMap.mp hmem
    split at hsome
    · cases hsome
      cases hbc
      exact ⟨hk, by assumption⟩
    · cases hsome
  · cases habs

theorem ratioGe_implies (a b : List Char) (h : ratioGeCutoff a b = true) :
    (43 : ℚ) / 50 ≤ ratioQ a b := by
  unfold ratioGeCutoff at h
  rw [decide_eq_true_iff] at h
  unfold ratioQ
  split_ifs with h0
  · norm_num
  · have hT : (0 : ℚ) < ((a.length + b.length : Nat) : ℚ) := by
      have : 0 < a.length + b.length := Nat.pos_of_ne_zero h0
      exact_mod_cast this
    rw [div_le_div_iff₀ (by norm_num) (by push_cast at hT ⊢; linarith)]
    have h2 : (43 : ℚ) * ((a.length + b.length : Nat) : ℚ) ≤
        100 * ((totalMatches a b : Nat) : ℚ) := by exact_mod_cast h
    push_cast at h2 ⊢
    linarith

/-- C7: every finding of the enabled typo rule is exactly the L004
finding of some extracted word `w` of some line of the input whose
lowercase form has length at least 3 and is not a recognized keyword, and
for which `get_close_matches` returned a single best keyword candidate
`c` whose similarity ratio is at least 0.86: the finding's message names
`w` and `c` verbatim, its severity is `error`, its line is the word's
line number and its column the clamped position of `w` in that line.
Since every finding is tied this way to a qualifying word, no
keyword-equal word and no word shorter than 3 characters is ever
flagged. -/
theorem rule_typo_findings_shape (sql : String) (f : Finding)
    (h : f ∈ rule_typo_keywords sql true) :
    f.severity = "error" ∧
    ∃ i line, (i, line) ∈ (pyLines sql).enumFrom 1 ∧
    ∃ w ∈ extractWords line,
      3 ≤ (pyLower w).length ∧
      SQL_KEYWORDS.contains (pyLower w) = false ∧
      ∃ c, get_close_matches1 (pyLower w) = some c ∧ c ∈ SQL_KEYWORDS ∧
        (43 : ℚ) / 50 ≤ ratioQ c.data (pyLower w).data ∧
        f = ⟨"L004",
          "Possible keyword typo \x27" ++ w ++ "\x27 (did you mean \x27" ++
            pyUpper c ++ "\x27)?",
          "error", i, max 1 (pyFind line w + 1),
          some ("Replace with " ++ pyUpper c)⟩ := by
  unfold rule_typo_keywords at h
  simp only [Bool.not_true, Bool.false_eq_true, if_false] at h
  obtain ⟨⟨i, line⟩, hp, h2⟩ := List.mem_flatMap.mp h
  obtain ⟨w, hw, hg⟩ := List.mem_filterMap.mp h2
  unfold l004g at hg
  split at hg
  · rename_i hcond
    split at hg
    · rename_i c hc
      cases hg
      obtain ⟨hkw, hge⟩ := get_close_matches1_sound (pyLower w) c hc
      rw [Bool.and_eq_true, Bool.not_eq_true'] at hcond
      refine ⟨rfl, i, line, hp, w, hw, ?_, hcond.1, c, hc, hkw,
        ratioGe_implies _ _ hge, rfl⟩
      exact of_decide_eq_true hcond.2
    · cases hg
  · cases hg

set_option maxRecDepth 8000 in
theorem rule_typo_findings_shape_witness :
    (⟨"L004",
      "Possible keyword typo \x27SELEC\x27 (did you mean \x27SELECT\x27)?",
      "error", 1, 1, some "Replace with SELECT"⟩ : Finding).severity =
        "error" ∧
    ∃ i line, (i, line) ∈ (pyLines "SELEC id FROM t").enumFrom 1 ∧
    ∃ w ∈ extractWords line,
      3 ≤ (pyLower w).length ∧
      SQL_KEYWORDS.contains (pyLower w) = false ∧
      ∃ c, get_close_matches1 (pyLower w) = some c ∧ c ∈ SQL_KEYWORDS ∧
        (43 : ℚ) / 50 ≤ ratioQ c.data (pyLower w).data ∧
        (⟨"L004",
          "Possible keyword typo \x27SELEC\x27 (did you mean \x27SELECT\x27)?",
          "error", 1, 1, some "Replace with SELECT"⟩ : Finding) =
          ⟨"L004",
            "Possible keyword typo \x27" ++ w ++ "\x27 (did you mean \x27" ++
              pyUpper c ++ "\x27)?",
            "error", i, max 1 (pyFind line w + 1),
            some ("Replace with " ++ pyUpper c)⟩ :=
  rule_typo_findings_shape "SELEC id FROM t" _ (by decide)

end SqlLint
